import Mathlib

/-!
Verification of the event-frame decoding and inventory-aggregation logic of
`rustyloot_sniffer.py` (a single-file WebSocket/Socket.IO sniffer).

The program's data are JSON values produced by `json.loads`; we embed them as
the inductive type `JVal`.  Python-level operations that the source relies on
(`dict.get`, truthiness-based `or` chains, `int(..)`, `float(..)`, tuple
equality, `deque(maxlen=..)`) are modelled explicitly as functions on `JVal`.
`json.loads` itself is an external library call; functions that invoke it are
parameterized by a decoder `loads : String → Option JVal` (`none` models a
raised `JSONDecodeError`).  Machine floats are modelled as rationals; the
prices exercised here (integer cents divided by 100) are exact in both.
-/

/-- JSON values as produced by Python's `json.loads`: `None`, `bool`, numbers,
`str`, `list`, and `dict` (a `dict` is modelled as its insertion-ordered
key/value list; `json.loads` yields unique keys, later duplicates winning). -/
inductive JVal where
  | null
  | bool (b : Bool)
  | num (q : Rat)
  | str (s : String)
  | arr (xs : List JVal)
  | obj (kvs : List (String × JVal))

mutual

/-- Structural equality of JSON values, modelling Python `==` on the results
of `json.loads` (`dict`s compare ignoring nothing: same keys in same stored
order here, which is adequate because the program only compares values that
were serialized from identical structures). -/
def jeq : JVal → JVal → Bool
  | .null, .null => true
  | .bool a, .bool b => a == b
  | .num a, .num b => a == b
  | .str a, .str b => a == b
  | .arr xs, .arr ys => jeqList xs ys
  | .obj l1, .obj l2 => jeqEntries l1 l2
  | _, _ => false

/-- Pointwise `jeq` on lists. -/
def jeqList : List JVal → List JVal → Bool
  | [], [] => true
  | x :: xs, y :: ys => jeq x y && jeqList xs ys
  | _, _ => false

/-- Pointwise `jeq` on key/value lists. -/
def jeqEntries : List (String × JVal) → List (String × JVal) → Bool
  | [], [] => true
  | (k, v) :: xs, (m, w) :: ys => k == m && jeq v w && jeqEntries xs ys
  | _, _ => false

end

/-- Python truthiness of a JSON value: `None`, `False`, `0`, `""`, `[]` and
an empty dict are falsy, everything else is truthy. -/
def pyTruthy : JVal → Bool
  | .null => false
  | .bool b => b
  | .num q => q.num != 0
  | .str s => !s.data.isEmpty
  | .arr xs => !xs.isEmpty
  | .obj kvs => !kvs.isEmpty

/-- Python `d.get(k)` on a dict: the value stored under `k`, if any.  A dict
built by `json.loads` keeps the last occurrence of a duplicated key, hence
the reversed search. -/
def pyGet (kvs : List (String × JVal)) (k : String) : Option JVal :=
  (kvs.reverse.find? (fun p => p.1 == k)).map (fun p => p.2)

/-- Python `d[k]` subscription: `none` models the `KeyError` raised when the
key is absent, or the `TypeError` raised when the subscripted value is not a
dict. -/
def pyIndex (v : JVal) (k : String) : Option JVal :=
  match v with
  | .obj kvs => pyGet kvs k
  | _ => none

/-- Python `x or y` where `x` is the result of a `dict.get` (absent keys give
`None`, which is falsy): the left value if present and truthy, else `y`. -/
def orElseJ (v : Option JVal) (rest : JVal) : JVal :=
  match v with
  | some x => if pyTruthy x then x else rest
  | none => rest

/-- Whether a JSON value may be used as a Python dict key: lists and dicts
are unhashable (`dict.setdefault` would raise `TypeError` on them). -/
def pyHashable : JVal → Bool
  | .arr _ => false
  | .obj _ => false
  | _ => true

/-- Whitespace stripped by Python's `int(..)`/`float(..)` string conversion. -/
def isPySpace (c : Char) : Bool :=
  c == ' ' || c == '\t' || c == '\n' || c == '\r' || c == '\x0b' || c == '\x0c'

/-- Leading and trailing whitespace removal (Python `str.strip()`). -/
def pyStrip (cs : List Char) : List Char :=
  ((cs.dropWhile isPySpace).reverse.dropWhile isPySpace).reverse

/-- Value of a non-empty digit string. -/
def digitsToNat (ds : List Char) : Nat :=
  ds.foldl (fun n c => 10 * n + (c.toNat - 48)) 0

/-- Python `int(s)` on a string: optional surrounding whitespace, optional
sign, then one or more decimal digits; anything else raises `ValueError`
(modelled as `none`).  Digit-group underscores are not modelled. -/
def parseIntStr (s : String) : Option Int :=
  let cs := pyStrip s.data
  let signDigits : Int × List Char :=
    match cs with
    | '+' :: r => (1, r)
    | '-' :: r => (-1, r)
    | r => (1, r)
  let ds := signDigits.2
  if !ds.isEmpty && ds.all Char.isDigit then
    some (signDigits.1 * (digitsToNat ds : Int))
  else
    none

/-- Python `float(s)` on a string: optional whitespace and sign, a mantissa
`digits[.digits]` or `.digits`, and an optional exponent.  The special
literals `inf`/`nan` and digit-group underscores are not modelled (they never
denote finite rationals / never occur in the aggregated price fields). -/
def parseFloatStr (s : String) : Option Rat :=
  let cs := pyStrip s.data
  let signRest : Rat × List Char :=
    match cs with
    | '+' :: r => (1, r)
    | '-' :: r => (-1, r)
    | r => (1, r)
  let r1 := signRest.2
  let intDs := r1.takeWhile Char.isDigit
  let r2 := r1.drop intDs.length
  let fracParse : List Char × List Char × Bool :=
    match r2 with
    | '.' :: r3 =>
      let fd := r3.takeWhile Char.isDigit
      (fd, r3.drop fd.length, !intDs.isEmpty || !fd.isEmpty)
    | _ => ([], r2, !intDs.isEmpty)
  let fracDs := fracParse.1
  let r4 := fracParse.2.1
  if !fracParse.2.2 then none else
  let mant : Rat :=
    signRest.1 * ((digitsToNat intDs : Rat) + (digitsToNat fracDs : Rat) / (10 : Rat) ^ fracDs.length)
  match r4 with
  | [] => some mant
  | 'e' :: r5 =>
    let esign : Bool × List Char :=
      match r5 with
      | '+' :: r => (true, r)
      | '-' :: r => (false, r)
      | r => (true, r)
    if !esign.2.isEmpty && esign.2.all Char.isDigit then
      some (mant * (if esign.1 then (10 : Rat) ^ digitsToNat esign.2 else 1 / (10 : Rat) ^ digitsToNat esign.2))
    else none
  | 'E' :: r5 =>
    let esign : Bool × List Char :=
      match r5 with
      | '+' :: r => (true, r)
      | '-' :: r => (false, r)
      | r => (true, r)
    if !esign.2.isEmpty && esign.2.all Char.isDigit then
      some (mant * (if esign.1 then (10 : Rat) ^ digitsToNat esign.2 else 1 / (10 : Rat) ^ digitsToNat esign.2))
    else none
  | _ => none

/-- Truncation toward zero, as Python `int(..)` applied to a float. -/
def pyTrunc (q : Rat) : Int := q.num.tdiv q.den

/-- Python `float(x)` on a JSON value; `none` models the raised
`TypeError`/`ValueError` for non-numeric values. -/
def pyToFloat : JVal → Option Rat
  | .num q => some q
  | .bool b => some (if b then 1 else 0)
  | .str s => parseFloatStr s
  | _ => none

/-- Python `int(x)` on a JSON value; `none` models the raised
`TypeError`/`ValueError` for non-numeric values. -/
def pyToInt : JVal → Option Int
  | .num q => some (pyTrunc q)
  | .bool b => some (if b then 1 else 0)
  | .str s => parseIntStr s
  | _ => none

/-! ## Inventory Aggregator (`merge_inventory`, rustyloot_sniffer.py lines 102-115) -/

/-- One aggregate entry: `{"amount": .., "total_price": ..}`. -/
structure AggRec where
  amount : Int
  total_price : Rat

/-- The running aggregate `agg`: a Python dict from item name (any hashable
value the `or`-chain produced) to its record, in insertion order. -/
abbrev Agg := List (JVal × AggRec)

/-- Name resolution from the source line
`it.get("name") or it.get("market_hash_name") or it.get("title") or "UNKNOWN"`. -/
def resolveName (kvs : List (String × JVal)) : JVal :=
  orElseJ (pyGet kvs "name")
    (orElseJ (pyGet kvs "market_hash_name")
      (orElseJ (pyGet kvs "title") (JVal.str "UNKNOWN")))

/-- Raw price resolution from the source line
`it.get("price") or it.get("price_cents") or 0`. -/
def resolveCents (kvs : List (String × JVal)) : JVal :=
  orElseJ (pyGet kvs "price") (orElseJ (pyGet kvs "price_cents") (JVal.num 0))

/-- Quantity-value resolution from the source line
`it.get("amount") or it.get("quantity") or 1` (before the `int(..)` call). -/
def resolveQtyVal (kvs : List (String × JVal)) : JVal :=
  orElseJ (pyGet kvs "amount") (orElseJ (pyGet kvs "quantity") (JVal.num 1))

/-- The price contribution of one record: `float(cents) / 100.0` with the
`try/except` of the source collapsing any conversion failure to `0.0`. -/
def priceOf (kvs : List (String × JVal)) : Rat :=
  match pyToFloat (resolveCents kvs) with
  | some f => f / 100
  | none => 0

/-- Effect of `rec = agg.setdefault(name, {"amount": 0, "total_price": 0.0});
rec["amount"] += qty; rec["total_price"] += price` on the dict. -/
def aggUpdate : Agg → JVal → Int → Rat → Agg
  | [], n, q, p => [(n, ⟨q, p⟩)]
  | (m, r) :: rest, n, q, p =>
    if jeq m n then (m, ⟨r.amount + q, r.total_price + p⟩) :: rest
    else (m, r) :: aggUpdate rest n q p

/-- The body of `merge_inventory`'s loop for one item `it`.  `Except.error`
models an uncaught exception: the `AttributeError` when `it` is not a dict,
the `ValueError`/`TypeError` from the bare `int(..)` call on a truthy
non-numeric quantity, or the `TypeError` from `setdefault` on an unhashable
name.  Only the `float` conversion is guarded by a `try/except` in the
source. -/
def mergeItem (agg : Agg) (it : JVal) : Except Unit Agg :=
  match it with
  | .obj kvs =>
    let name := resolveName kvs
    let price := priceOf kvs
    match pyToInt (resolveQtyVal kvs) with
    | some qty =>
      if pyHashable name then .ok (aggUpdate agg name qty price) else .error ()
    | none => .error ()
  | _ => .error ()

/-- The function `merge_inventory(agg, items)`: fold the items into the
aggregate in order.  The returned flag records whether an exception escaped;
in that case the aggregate holds the items merged before the raise, matching
the in-place mutation of the source. -/
def merge_inventory (agg : Agg) : List JVal → Agg × Bool
  | [] => (agg, false)
  | it :: rest =>
    match mergeItem agg it with
    | .ok agg' => merge_inventory agg' rest
    | .error _ => (agg, true)

/-- Lookup of an aggregate entry by name (Python dict indexing). -/
def lookupRec (agg : Agg) (n : JVal) : Option AggRec :=
  (agg.find? (fun p => jeq p.1 n)).map (fun p => p.2)

/-- Modelled from the spec: the "explicit ordered-candidate-field resolver
... parameterized by a list of field names tried in order", amended to
truthiness: it returns the first candidate value that is present and truthy
(the source's `or`-chains skip falsy values such as `""` and `0`, not only
`None`). -/
def firstTruthy (kvs : List (String × JVal)) : List String → JVal → JVal
  | [], dflt => dflt
  | k :: ks, dflt =>
    match pyGet kvs k with
    | some v => if pyTruthy v then v else firstTruthy kvs ks dflt
    | none => firstTruthy kvs ks dflt

/-- The worked item record of the spec:
`{"name": "Widget", "price": 250, "amount": 2}`. -/
def widgetKvs : List (String × JVal) :=
  [("name", JVal.str "Widget"), ("price", JVal.num 250), ("amount", JVal.num 2)]


/-! ## Socket.IO decoder (`parse_socketio`, rustyloot_sniffer.py lines 74-83) -/

/-- Python `payload.startswith(p)`: character-level prefix test. -/
def pyStartswith (s p : String) : Bool := p.data.isPrefixOf s.data

/-- The function `parse_socketio(payload)`, parameterized by the JSON
decoder `loads` (modelling `json.loads`; `none` is a raised
`JSONDecodeError`).  A payload decodes to an event exactly when it is a
string starting with the literal tag `"42"` whose remainder parses to a
non-empty JSON array; the array's head is the event name, its tail the
event arguments.  Every other shape, and every parse failure, yields
`none`. -/
def parse_socketio (loads : String → Option JVal) (payload : JVal) :
    Option (JVal × List JVal) :=
  match payload with
  | .str s =>
    if pyStartswith s "42" then
      match loads (s.drop 2) with
      | some (.arr (x :: rest)) => some (x, rest)
      | _ => none
    else none
  | _ => none

/-! ## Inventory Candidate Locator (`try_extract_inventory`, lines 85-100) -/

/-- The three places `try_extract_inventory` can take its candidate from. -/
inductive InvBranch where
  | dataInv
  | topInv
  | selfList

/-- The candidate list `cands` built by `try_extract_inventory`, with each
candidate tagged by the branch that appended it.  Every appended candidate
is (the element list of) a JSON list, so the `isinstance(c, list)` filter of
the source's final loop is the identity and the function returns the first
candidate, if any. -/
def invCands (args : List JVal) : List (InvBranch × List JVal) :=
  match args with
  | [] => []
  | first :: _ =>
    (match first with
     | .obj kvs =>
       (match pyGet kvs "data" with
        | some (.obj d) =>
          (match pyGet d "inventory" with
           | some (.arr inv) => [(InvBranch.dataInv, inv)]
           | _ => [])
        | _ => []) ++
       (match pyGet kvs "inventory" with
        | some (.arr inv) => [(InvBranch.topInv, inv)]
        | _ => [])
     | _ => []) ++
    (match first with
     | .arr l => [(InvBranch.selfList, l)]
     | _ => [])

/-- The function `try_extract_inventory(args)`: the first candidate found,
or the empty list. -/
def try_extract_inventory (args : List JVal) : List JVal :=
  ((invCands args).head?.map (fun p => p.2)).getD []

/-- The branch through which `try_extract_inventory` produced its result,
if any candidate matched. -/
def extractBranch (args : List JVal) : Option InvBranch :=
  (invCands args).head?.map (fun p => p.1)

/-- Helper for the spec-side locator: priority (b), the top-level
`"inventory"` field when it is a list. -/
def locateTop (kvs : List (String × JVal)) : List JVal :=
  match pyGet kvs "inventory" with
  | some (.arr inv) => inv
  | _ => []

/-- Modelled from the spec: "Check, in order: (a) if it is an object with a
nested object field named \"data\" whose \"inventory\" sub-field is a list,
use that; (b) else if it is an object with an \"inventory\" field that is a
list, use that; (c) else if the first element itself is a list, use it
directly"; empty when nothing matches or the argument list is empty. -/
def locateSpec (args : List JVal) : List JVal :=
  match args with
  | [] => []
  | first :: _ =>
    match first with
    | .obj kvs =>
      match pyGet kvs "data" with
      | some (.obj d) =>
        match pyGet d "inventory" with
        | some (.arr inv) => inv
        | _ => locateTop kvs
      | _ => locateTop kvs
    | .arr l => l
    | _ => []

/-- Concrete fragment of a JSON decoder (a stand-in for `json.loads` at the
particular strings exercised by the witnesses; everything else is treated
as a parse failure). -/
def demoLoads : String → Option JVal := fun s =>
  if s == "[\"priceUpdate\",\x7b\"x\":1\x7d]" then
    some (JVal.arr [JVal.str "priceUpdate", JVal.obj [("x", JVal.num 1)]])
  else if s == "\x7b\"message\":\x7b\"method\":\"Network.webSocketFrameReceived\"\x7d\x7d" then
    some (JVal.obj [("message", JVal.obj [("method", JVal.str "Network.webSocketFrameReceived")])])
  else none


/-! ## Signatures and the Dedup Filter (rustyloot_sniffer.py lines 159-173) -/

/-- Key order used by `json.dumps(.., sort_keys=True)`: compare entries by
their key strings. -/
def keyLe (p q : String × JVal) : Prop := p.1 ≤ q.1

/-- Strict version of `keyLe`. -/
def keyLt (p q : String × JVal) : Prop := p.1 < q.1

instance : DecidableRel keyLe := fun p q => inferInstanceAs (Decidable (p.1 ≤ q.1))

instance : IsTotal (String × JVal) keyLe := ⟨fun a b => le_total a.1 b.1⟩

instance : IsTrans (String × JVal) keyLe := ⟨fun _ _ _ h1 h2 => le_trans h1 h2⟩

instance : IsAntisymm (String × JVal) keyLt := ⟨fun _ _ h1 h2 => (lt_asymm h1 h2).elim⟩

/-- Sorting of a dict's entries by key, as `sort_keys=True` does. -/
def sortEntries (l : List (String × JVal)) : List (String × JVal) :=
  l.insertionSort keyLe

mutual

/-- Recursive key-sorting of every object inside a JSON value.  A value
serialized by `json.dumps(.., sort_keys=True)` is serialized exactly as its
`jnorm` image is with no sorting, so two values with the same `jnorm` image
have the same canonical serialization. -/
def jnorm : JVal → JVal
  | .null => .null
  | .bool b => .bool b
  | .num q => .num q
  | .str s => .str s
  | .arr xs => .arr (jnormList xs)
  | .obj kvs => .obj (sortEntries (jnormEntries kvs))

/-- Elementwise `jnorm` on array elements. -/
def jnormList : List JVal → List JVal
  | [] => []
  | x :: xs => jnorm x :: jnormList xs

/-- Valuewise `jnorm` on object entries. -/
def jnormEntries : List (String × JVal) → List (String × JVal)
  | [] => []
  | (k, v) :: xs => (k, jnorm v) :: jnormEntries xs

end

/-- JSON string escaping for serialization (the common escapes; remaining
control characters are kept literal, which does not affect determinism). -/
def escChar (c : Char) : String :=
  if c = '"' then "\\\"" else if c = '\\' then "\\\\"
  else if c = '\n' then "\\n" else if c = '\t' then "\\t" else if c = '\r' then "\\r"
  else String.singleton c

/-- A JSON string literal. -/
def strLit (s : String) : String :=
  "\"" ++ String.join (s.data.map escChar) ++ "\""

/-- Rendering of a JSON number (a deterministic stand-in for Python's
int/float repr; only injectivity-by-construction matters here). -/
def ratLit (q : Rat) : String :=
  toString q.num ++ (if q.den == 1 then "" else "/" ++ toString q.den)

/-- Comma-joined rendering of already-rendered pieces. -/
def commaJoin (parts : List String) : String :=
  String.intercalate ", " parts

mutual

/-- Serialization of a JSON value in stored order (no sorting); composing it
with `jnorm` models `json.dumps(v, ensure_ascii=False, sort_keys=True)`. -/
def dumpsPlain : JVal → String
  | .null => "null"
  | .bool b => if b then "true" else "false"
  | .num q => ratLit q
  | .str s => strLit s
  | .arr xs => "[" ++ commaJoin (dumpsPlainList xs) ++ "]"
  | .obj kvs => "\x7b" ++ commaJoin (dumpsPlainEntries kvs) ++ "\x7d"

/-- Renders each array element. -/
def dumpsPlainList : List JVal → List String
  | [] => []
  | x :: xs => dumpsPlain x :: dumpsPlainList xs

/-- Renders each `key: value` entry. -/
def dumpsPlainEntries : List (String × JVal) → List String
  | [] => []
  | (k, v) :: xs => (strLit k ++ ": " ++ dumpsPlain v) :: dumpsPlainEntries xs

end

/-- The canonical serialization used for signatures:
`json.dumps(v, ensure_ascii=False, sort_keys=True)`. -/
def canonDumps (v : JVal) : String := dumpsPlain (jnorm v)

/-- An event signature, `sig = (direction, name, json.dumps(evt_args, ...))`. -/
abbrev Sig := String × JVal × String

/-- Python `==` on signature tuples. -/
def sigEq (a b : Sig) : Bool :=
  a.1 == b.1 && jeq a.2.1 b.2.1 && a.2.2 == b.2.2

/-- Python `sig in seen` on the deque: a linear scan with `==`. -/
def sigMem (x : Sig) (seen : List Sig) : Bool :=
  seen.any (fun y => sigEq x y)

/-- The deque bound `deque(maxlen=2000)` of the source; kept opaque to
definitional unfolding so that goals never expand the literal bound. -/
def seenCapacity : Nat := 2000

attribute [irreducible] seenCapacity

/-- `seen.append(sig)` on a `deque(maxlen=seenCapacity)`: appends on the
right, silently evicting the oldest (leftmost) entry when full. -/
def dedupPush (seen : List Sig) (x : Sig) : List Sig :=
  if seen.length < seenCapacity then seen ++ [x] else seen.drop 1 ++ [x]

/-- The dedup step of the main loop: `if sig in seen: continue` (processed =
`false`, state unchanged), else process and `seen.append(sig)`. -/
def dedupStep (seen : List Sig) (x : Sig) : Bool × List Sig :=
  if sigMem x seen then (false, seen) else (true, dedupPush seen x)

/-- The deque state after feeding a sequence of signatures through the
dedup filter, starting empty. -/
def dedupRun (sigs : List Sig) : List Sig :=
  sigs.foldl (fun s x => (dedupStep s x).2) []

/-- The signature built at line 170:
`sig = (direction, name, json.dumps(evt_args, ensure_ascii=False, sort_keys=True))`. -/
def eventSig (direction : String) (name : JVal) (args : List JVal) : Sig :=
  (direction, name, canonDumps (JVal.arr args))

/-- The last `n` elements of a list. -/
def lastN {α : Type} (n : Nat) (l : List α) : List α :=
  l.drop (l.length - n)

mutual

/-- Well-formedness of a JSON value as produced by `json.loads`: every
object, at every depth, has pairwise-distinct keys. -/
def keysOk : JVal → Bool
  | .arr xs => keysOkList xs
  | .obj kvs => decide ((kvs.map Prod.fst).Nodup) && keysOkEntries kvs
  | _ => true

/-- All array elements are well-formed. -/
def keysOkList : List JVal → Bool
  | [] => true
  | x :: xs => keysOk x && keysOkList xs

/-- All object entry values are well-formed. -/
def keysOkEntries : List (String × JVal) → Bool
  | [] => true
  | (_, v) :: xs => keysOk v && keysOkEntries xs

end

/-- Equality of JSON content up to the order of object keys: two values are
related when they agree except that, at any depth, the entry list of an
object may be permuted. -/
inductive JPerm : JVal → JVal → Prop where
  | null : JPerm .null .null
  | bool (b : Bool) : JPerm (.bool b) (.bool b)
  | num (q : Rat) : JPerm (.num q) (.num q)
  | str (s : String) : JPerm (.str s) (.str s)
  | arr {xs ys : List JVal} (len : xs.length = ys.length)
      (h : ∀ (i : Nat) (hx : i < xs.length) (hy : i < ys.length),
        JPerm (xs.get ⟨i, hx⟩) (ys.get ⟨i, hy⟩)) :
      JPerm (.arr xs) (.arr ys)
  | obj {l₁ l₂ l₃ : List (String × JVal)} (len : l₁.length = l₂.length)
      (hk : ∀ (i : Nat) (h1 : i < l₁.length) (h2 : i < l₂.length),
        (l₁.get ⟨i, h1⟩).1 = (l₂.get ⟨i, h2⟩).1)
      (hv : ∀ (i : Nat) (h1 : i < l₁.length) (h2 : i < l₂.length),
        JPerm (l₁.get ⟨i, h1⟩).2 (l₂.get ⟨i, h2⟩).2)
      (hp : l₂.Perm l₃) : JPerm (.obj l₁) (.obj l₃)

/-- Concrete argument list `[{"a": 1, "b": 2}]` for the dedup witness. -/
def witA1 : List JVal := [JVal.obj [("a", JVal.num 1), ("b", JVal.num 2)]]

/-- The same content with the object keys in the other order. -/
def witA2 : List JVal := [JVal.obj [("b", JVal.num 2), ("a", JVal.num 1)]]

/-- A family of pairwise-distinct signatures. -/
def witSig (i : Nat) : Sig := ("in", JVal.num i, "")

/-- `seenCapacity + 1` pairwise-distinct signatures. -/
def witSigs : List Sig := (List.range (seenCapacity + 1)).map witSig

/-! ## Frame Extractor (`safe_get_perf` lines 52-64, `iter_ws_frames` lines 66-72) -/

/-- The body of `safe_get_perf`'s loop for one raw log entry:
`json.loads(entry["message"])["message"]`, with every failure (entry not a
dict, `"message"` absent or not a string, JSON parse failure, parsed value
not a dict or lacking `"message"`) caught by the surrounding
`try/except: pass` and modelled as `none`. -/
def extractMsg (loads : String → Option JVal) (entry : JVal) : Option JVal :=
  match entry with
  | .obj kvs =>
    match pyGet kvs "message" with
    | some (.str s) =>
      match loads s with
      | some (.obj m) => pyGet m "message"
      | _ => none
    | _ => none
  | _ => none

/-- The accumulation loop of `safe_get_perf`: `out = []`, append each
successfully parsed message, skip failures. -/
def perfLoop (loads : String → Option JVal) : List JVal → List JVal → List JVal
  | out, [] => out
  | out, e :: rest =>
    match extractMsg loads e with
    | some m => perfLoop loads (out ++ [m]) rest
    | none => perfLoop loads out rest

/-- The function `safe_get_perf` applied to the raw entries the driver
returned (a failed `get_log` call is modelled by the empty entry list). -/
def safe_get_perf (loads : String → Option JVal) (entries : List JVal) : List JVal :=
  perfLoop loads [] entries

/-- The lookup `m["params"]["response"]["payloadData"]` of `iter_ws_frames`;
`none` models the uncaught `KeyError`/`TypeError` when the path is absent. -/
def payloadOf (m : JVal) : Option JVal :=
  match pyIndex m "params" with
  | some a =>
    match pyIndex a "response" with
    | some b => pyIndex b "payloadData"
    | none => none
  | none => none

/-- The generator `iter_ws_frames` run to completion over the parsed
messages: the first component collects the `(direction, payloadData)` pairs
yielded before any raise, the second records whether an exception was
raised (there is no `try/except` between `iter_ws_frames` and the top of
`main`, so a raise aborts the remainder of the poll's pipeline). -/
def iter_ws_frames : List JVal → List (String × JVal) × Bool
  | [] => ([], false)
  | m :: rest =>
    match m with
    | .obj kvs =>
      let method := (pyGet kvs "method").getD (JVal.str "")
      if jeq method (JVal.str "Network.webSocketFrameReceived") then
        match payloadOf (JVal.obj kvs) with
        | some p =>
          match iter_ws_frames rest with
          | (fs, e) => (("in", p) :: fs, e)
        | none => ([], true)
      else if jeq method (JVal.str "Network.webSocketFrameSent") then
        match payloadOf (JVal.obj kvs) with
        | some p =>
          match iter_ws_frames rest with
          | (fs, e) => (("out", p) :: fs, e)
        | none => ([], true)
      else iter_ws_frames rest
    | _ => ([], true)

/-- A parsed message with the received-frame method but no `params` path. -/
def wsBadMsg : JVal := JVal.obj [("method", JVal.str "Network.webSocketFrameReceived")]

/-- A parsed message carrying a complete `params.response.payloadData` path. -/
def wsGoodMsg : JVal :=
  JVal.obj [("method", JVal.str "Network.webSocketFrameReceived"),
            ("params", JVal.obj [("response", JVal.obj [("payloadData", JVal.str "42[\"e\"]")])])]

/-- A raw log entry whose outer and inner JSON both parse (under
`demoLoads`) to `wsBadMsg`. -/
def wsBadEntry : JVal :=
  JVal.obj [("message",
    JVal.str "\x7b\"message\":\x7b\"method\":\"Network.webSocketFrameReceived\"\x7d\x7d")]

/-! ## Theorems -/

mutual

theorem jeq_refl : ∀ v : JVal, jeq v v = true
  | .null => rfl
  | .bool b => by simp [jeq]
  | .num q => by simp [jeq]
  | .str s => by simp [jeq]
  | .arr xs => by rw [jeq]; exact jeqList_refl xs
  | .obj l => by rw [jeq]; exact jeqEntries_refl l

theorem jeqList_refl : ∀ xs : List JVal, jeqList xs xs = true
  | [] => rfl
  | x :: xs => by rw [jeqList, jeq_refl x, jeqList_refl xs]; rfl

theorem jeqEntries_refl : ∀ l : List (String × JVal), jeqEntries l l = true
  | [] => rfl
  | (k, v) :: l => by rw [jeqEntries, jeq_refl v, jeqEntries_refl l]; simp

end

theorem lookupRec_aggUpdate (agg : Agg) (n : JVal) (q : Int) (p : Rat) :
    lookupRec (aggUpdate agg n q p) n =
      some ⟨((lookupRec agg n).getD ⟨0, 0⟩).amount + q,
            ((lookupRec agg n).getD ⟨0, 0⟩).total_price + p⟩ := by
  induction agg with
  | nil => simp [lookupRec, aggUpdate, List.find?, jeq_refl]
  | cons hd tl ih =>
    obtain ⟨m, r⟩ := hd
    by_cases h : jeq m n = true
    · simp [lookupRec, aggUpdate, h, List.find?]
    · simp only [aggUpdate, h, Bool.false_eq_true, if_false]
      simpa [lookupRec, List.find?, h] using ih

theorem mergeItem_ok (agg : Agg) (kvs : List (String × JVal)) (q : Int)
    (hq : pyToInt (resolveQtyVal kvs) = some q)
    (hn : pyHashable (resolveName kvs) = true) :
    mergeItem agg (.obj kvs) = .ok (aggUpdate agg (resolveName kvs) q (priceOf kvs)) := by
  simp [mergeItem, hq, hn]

/-- C1: starting from the empty aggregate, merging
`{"name": "Widget", "price": 250, "amount": 2}` once yields exactly
`{"Widget": {"amount": 2, "total_price": 2.5}}`; merging it twice yields
`{"Widget": {"amount": 4, "total_price": 5.0}}`; and in general each merged
record adds its quantity to the entry's `amount` and its price divided by 100
to the entry's `total_price` exactly once — the price contribution `priceOf`
is computed from the price fields alone, never multiplied by the quantity. -/
theorem merge_adds_price_once :
    merge_inventory [] [JVal.obj widgetKvs] = ([(JVal.str "Widget", ⟨2, 5 / 2⟩)], false) ∧
    merge_inventory [] [JVal.obj widgetKvs, JVal.obj widgetKvs]
      = ([(JVal.str "Widget", ⟨4, 5⟩)], false) ∧
    ∀ (agg : Agg) (kvs : List (String × JVal)) (q : Int),
      pyToInt (resolveQtyVal kvs) = some q →
      pyHashable (resolveName kvs) = true →
      merge_inventory agg [JVal.obj kvs]
        = (aggUpdate agg (resolveName kvs) q (priceOf kvs), false) ∧
      lookupRec (merge_inventory agg [JVal.obj kvs]).1 (resolveName kvs)
        = some ⟨((lookupRec agg (resolveName kvs)).getD ⟨0, 0⟩).amount + q,
                ((lookupRec agg (resolveName kvs)).getD ⟨0, 0⟩).total_price + priceOf kvs⟩ := by
  refine ⟨?_, ?_, ?_⟩
  · have h1 : resolveName widgetKvs = JVal.str "Widget" := by
      simp [resolveName, widgetKvs, orElseJ, pyGet, pyTruthy]
    have h2 : priceOf widgetKvs = 5 / 2 := by
      simp [priceOf, resolveCents, widgetKvs, orElseJ, pyGet, pyTruthy, pyToFloat]
      norm_num
    have h3 : pyToInt (resolveQtyVal widgetKvs) = some 2 := by
      simp [resolveQtyVal, widgetKvs, orElseJ, pyGet, pyTruthy, pyToInt, pyTrunc]
    rw [show merge_inventory [] [JVal.obj widgetKvs]
          = (match mergeItem [] (JVal.obj widgetKvs) with
             | .ok agg' => merge_inventory agg' []
             | .error _ => ([], true)) from rfl,
        mergeItem_ok [] widgetKvs 2 h3 (by rw [h1]; rfl), h1, h2]
    rfl
  · have h1 : resolveName widgetKvs = JVal.str "Widget" := by
      simp [resolveName, widgetKvs, orElseJ, pyGet, pyTruthy]
    have h2 : priceOf widgetKvs = 5 / 2 := by
      simp [priceOf, resolveCents, widgetKvs, orElseJ, pyGet, pyTruthy, pyToFloat]
      norm_num
    have h3 : pyToInt (resolveQtyVal widgetKvs) = some 2 := by
      simp [resolveQtyVal, widgetKvs, orElseJ, pyGet, pyTruthy, pyToInt, pyTrunc]
    rw [show merge_inventory [] [JVal.obj widgetKvs, JVal.obj widgetKvs]
          = (match mergeItem [] (JVal.obj widgetKvs) with
             | .ok agg' => merge_inventory agg' [JVal.obj widgetKvs]
             | .error _ => ([], true)) from rfl,
        mergeItem_ok [] widgetKvs 2 h3 (by rw [h1]; rfl), h1, h2]
    show merge_inventory (aggUpdate [] (JVal.str "Widget") 2 (5 / 2)) [JVal.obj widgetKvs]
      = ([(JVal.str "Widget", ⟨4, 5⟩)], false)
    rw [show aggUpdate [] (JVal.str "Widget") 2 (5 / 2) = [(JVal.str "Widget", ⟨2, 5 / 2⟩)] from rfl,
        show merge_inventory [(JVal.str "Widget", ⟨2, 5 / 2⟩)] [JVal.obj widgetKvs]
          = (match mergeItem [(JVal.str "Widget", ⟨2, 5 / 2⟩)] (JVal.obj widgetKvs) with
             | .ok agg' => merge_inventory agg' []
             | .error _ => ([(JVal.str "Widget", ⟨2, 5 / 2⟩)], true)) from rfl,
        mergeItem_ok _ widgetKvs 2 h3 (by rw [h1]; rfl), h1, h2]
    show (aggUpdate [(JVal.str "Widget", ⟨2, 5 / 2⟩)] (JVal.str "Widget") 2 (5 / 2), false)
      = ([(JVal.str "Widget", ⟨4, 5⟩)], false)
    have : jeq (JVal.str "Widget") (JVal.str "Widget") = true := jeq_refl _
    simp [aggUpdate, this]
  · intro agg kvs q hq hn
    have hm : merge_inventory agg [JVal.obj kvs]
        = (aggUpdate agg (resolveName kvs) q (priceOf kvs), false) := by
      rw [show merge_inventory agg [JVal.obj kvs]
            = (match mergeItem agg (JVal.obj kvs) with
               | .ok agg' => merge_inventory agg' []
               | .error _ => (agg, true)) from rfl,
          mergeItem_ok agg kvs q hq hn]
      rfl
    exact ⟨hm, by rw [hm]; exact lookupRec_aggUpdate agg (resolveName kvs) q (priceOf kvs)⟩

/-- C2 counterexample: a record whose quantity field holds the truthy
non-numeric string `"abc"` makes the aggregator raise (`int("abc")` is not
guarded by any `try/except`), so `merge_inventory` aborts instead of
defaulting the quantity. -/
theorem merge_nonnumeric_qty_raises_cex :
    merge_inventory [] [JVal.obj [("name", JVal.str "W"), ("amount", JVal.str "abc")]]
      = ([], true) := rfl

/-- C2 (amended): a record whose resolved price value is non-numeric
contributes price `0.0` (the `float` conversion is wrapped in `try/except`),
but the quantity is only defaulted to 1 when its candidate fields are absent
or falsy — a present, truthy, non-numeric quantity value makes the bare
`int(..)` call raise, aborting the merge and hence the polling loop. -/
theorem merge_price_defaults_qty_raises :
    (∀ (agg : Agg) (kvs : List (String × JVal)) (q : Int),
        pyToFloat (resolveCents kvs) = none →
        pyToInt (resolveQtyVal kvs) = some q →
        pyHashable (resolveName kvs) = true →
        merge_inventory agg [JVal.obj kvs] = (aggUpdate agg (resolveName kvs) q 0, false)) ∧
    (∀ (agg : Agg) (kvs : List (String × JVal)),
        pyToInt (resolveQtyVal kvs) = none →
        merge_inventory agg [JVal.obj kvs] = (agg, true)) := by
  constructor
  · intro agg kvs q hp hq hn
    have hpr : priceOf kvs = 0 := by simp [priceOf, hp]
    rw [show merge_inventory agg [JVal.obj kvs]
          = (match mergeItem agg (JVal.obj kvs) with
             | .ok agg' => merge_inventory agg' []
             | .error _ => (agg, true)) from rfl,
        mergeItem_ok agg kvs q hq hn, hpr]
    rfl
  · intro agg kvs hq
    have hm : mergeItem agg (JVal.obj kvs) = .error () := by
      simp [mergeItem, hq]
    rw [show merge_inventory agg [JVal.obj kvs]
          = (match mergeItem agg (JVal.obj kvs) with
             | .ok agg' => merge_inventory agg' []
             | .error _ => (agg, true)) from rfl,
        hm]

/-- C2 witness: at the concrete records `{"price": "abc"}` (non-numeric
price, quantity defaulted to 1, merged with price 0) and
`{"amount": "zz"}` (non-numeric quantity, merge raises), the hypotheses of
the amended theorem hold and its conclusions follow. -/
theorem merge_price_defaults_qty_raises_witness :
    (pyToFloat (resolveCents [("price", JVal.str "abc")]) = none ∧
     pyToInt (resolveQtyVal [("price", JVal.str "abc")]) = some 1 ∧
     merge_inventory [] [JVal.obj [("price", JVal.str "abc")]]
       = (aggUpdate [] (resolveName [("price", JVal.str "abc")]) 1 0, false)) ∧
    (pyToInt (resolveQtyVal [("amount", JVal.str "zz")]) = none ∧
     merge_inventory [] [JVal.obj [("amount", JVal.str "zz")]] = ([], true)) :=
  ⟨⟨rfl, rfl, merge_price_defaults_qty_raises.1 [] [("price", JVal.str "abc")] 1 rfl rfl rfl⟩,
   ⟨rfl, merge_price_defaults_qty_raises.2 [] [("amount", JVal.str "zz")] rfl⟩⟩

/-- C8 counterexample: a candidate field that is present with a non-null but
falsy value is skipped, not used: `{"name": "", "market_hash_name": "X"}`
resolves to `"X"` (the claim says `""`), and
`{"price": 0, "price_cents": 500}` resolves to `500` (the claim says `0`). -/
theorem resolver_skips_falsy_cex :
    resolveName [("name", JVal.str ""), ("market_hash_name", JVal.str "X")] = JVal.str "X" ∧
    resolveCents [("price", JVal.num 0), ("price_cents", JVal.num 500)] = JVal.num 500 :=
  ⟨rfl, rfl⟩

/-- C8 (amended): each aggregated field resolves to the first present
*truthy* value among its candidate keys — Python's `or`-chain skips `None`
and every falsy value (`""`, `0`, `false`, `[]`, `{}`) alike — with defaults
`"UNKNOWN"`, `0` and `1` when all candidates are absent or falsy; this is
exactly the ordered-candidate resolver `firstTruthy`. -/
theorem resolver_first_truthy (kvs : List (String × JVal)) :
    resolveName kvs = firstTruthy kvs ["name", "market_hash_name", "title"] (JVal.str "UNKNOWN") ∧
    resolveCents kvs = firstTruthy kvs ["price", "price_cents"] (JVal.num 0) ∧
    resolveQtyVal kvs = firstTruthy kvs ["amount", "quantity"] (JVal.num 1) :=
  ⟨rfl, rfl, rfl⟩

/-- C1 witness: at the concrete widget record the hypotheses of the general
conjunct hold (quantity resolves to 2, the name is hashable) and the merge
equation follows by applying the theorem there. -/
theorem merge_adds_price_once_witness :
    (pyToInt (resolveQtyVal widgetKvs) = some 2 ∧
     pyHashable (resolveName widgetKvs) = true) ∧
    merge_inventory [] [JVal.obj widgetKvs]
      = (aggUpdate [] (resolveName widgetKvs) 2 (priceOf widgetKvs), false) :=
  ⟨⟨rfl, rfl⟩, (merge_adds_price_once.2.2 [] widgetKvs 2 rfl rfl).1⟩

/-- C3: for every decoder and payload, `parse_socketio` returns an event
exactly when the payload is a string beginning with the two characters
`"42"` whose remainder parses to a JSON array with at least one element; in
that case the event name is the array's first element (of any JSON type)
and the arguments are the remaining elements in order.  In every other case
(non-string payload, wrong prefix, parse failure, non-array, empty array)
it returns nothing. -/
theorem socketio_decode_iff (loads : String → Option JVal) (payload : JVal)
    (n : JVal) (rest : List JVal) :
    parse_socketio loads payload = some (n, rest) ↔
      ∃ s, payload = JVal.str s ∧ pyStartswith s "42" = true ∧
        loads (s.drop 2) = some (JVal.arr (n :: rest)) := by
  cases payload with
  | str s =>
    constructor
    · intro h
      simp only [parse_socketio] at h
      by_cases h42 : pyStartswith s "42" = true
      · rw [if_pos h42] at h
        rcases hl : loads (s.drop 2) with _ | v
        · rw [hl] at h; cases h
        · rw [hl] at h
          cases v with
          | arr xs =>
            cases xs with
            | nil => cases h
            | cons x r =>
              obtain ⟨rfl, rfl⟩ : x = n ∧ r = rest := by
                have := Option.some.inj h
                exact ⟨congrArg Prod.fst this, congrArg Prod.snd this⟩
              exact ⟨s, rfl, h42, hl⟩
          | null => cases h
          | bool b => cases h
          | num q => cases h
          | str t => cases h
          | obj kvs => cases h
      · rw [if_neg h42] at h; cases h
    · rintro ⟨s', hs, h42, hl⟩
      obtain rfl : s' = s := (JVal.str.injEq ..).mp hs.symm
      simp [parse_socketio, h42, hl]
  | null => simp [parse_socketio]
  | bool b => simp [parse_socketio]
  | num q => simp [parse_socketio]
  | arr xs => simp [parse_socketio]
  | obj kvs => simp [parse_socketio]

/-- C3 witness: the spec's worked example — decoding the payload
`42["priceUpdate",{"x":1}]` (with a decoder fragment that parses the
remainder) yields event name `"priceUpdate"` and arguments `[{"x":1}]`. -/
theorem socketio_decode_iff_witness :
    pyStartswith "42[\"priceUpdate\",\x7b\"x\":1\x7d]" "42" = true ∧
    parse_socketio demoLoads (JVal.str "42[\"priceUpdate\",\x7b\"x\":1\x7d]")
      = some (JVal.str "priceUpdate", [JVal.obj [("x", JVal.num 1)]]) :=
  ⟨rfl, (socketio_decode_iff demoLoads (JVal.str "42[\"priceUpdate\",\x7b\"x\":1\x7d]")
      (JVal.str "priceUpdate") [JVal.obj [("x", JVal.num 1)]]).mpr
    ⟨"42[\"priceUpdate\",\x7b\"x\":1\x7d]", rfl, rfl, rfl⟩⟩

theorem try_extract_obj_nodata (kvs : List (String × JVal)) (rest : List JVal)
    (h : (match pyGet kvs "data" with
          | some (.obj d) =>
            (match pyGet d "inventory" with
             | some (.arr inv) => [(InvBranch.dataInv, inv)]
             | _ => [])
          | _ => []) = ([] : List (InvBranch × List JVal))) :
    try_extract_inventory (JVal.obj kvs :: rest) = locateTop kvs := by
  rcases hi : pyGet kvs "inventory" with _ | w
  · simp [try_extract_inventory, invCands, locateTop, h, hi]
  · cases w <;> simp [try_extract_inventory, invCands, locateTop, h, hi]

/-- C4: the Inventory Candidate Locator equals the spec's priority locator:
candidates are tried in the order (a) `data.inventory`, (b) `inventory`,
(c) the first element itself when it is a list, and the result is empty
when no check matches or the argument list is empty.  In particular, for a
first argument carrying both `data.inventory = LA` and `inventory = LB`,
the result is `LA`, not `LB`. -/
theorem locator_priority (args : List JVal) :
    try_extract_inventory args = locateSpec args := by
  match args with
  | [] => rfl
  | first :: rest =>
    cases first with
    | null => rfl
    | bool b => rfl
    | num q => rfl
    | str s => rfl
    | arr l => rfl
    | obj kvs =>
      rcases hd : pyGet kvs "data" with _ | d
      · rw [try_extract_obj_nodata kvs rest (by simp [hd])]
        simp [locateSpec, hd]
      · cases d with
        | obj dkv =>
          rcases hdi : pyGet dkv "inventory" with _ | w2
          · rw [try_extract_obj_nodata kvs rest (by simp [hd, hdi])]
            simp [locateSpec, hd, hdi]
          · cases w2 with
            | arr inv => simp [try_extract_inventory, invCands, locateSpec, hd, hdi]
            | null =>
              rw [try_extract_obj_nodata kvs rest (by simp [hd, hdi])]
              simp [locateSpec, hd, hdi]
            | bool b =>
              rw [try_extract_obj_nodata kvs rest (by simp [hd, hdi])]
              simp [locateSpec, hd, hdi]
            | num q =>
              rw [try_extract_obj_nodata kvs rest (by simp [hd, hdi])]
              simp [locateSpec, hd, hdi]
            | str t =>
              rw [try_extract_obj_nodata kvs rest (by simp [hd, hdi])]
              simp [locateSpec, hd, hdi]
            | obj o2 =>
              rw [try_extract_obj_nodata kvs rest (by simp [hd, hdi])]
              simp [locateSpec, hd, hdi]
        | null =>
          rw [try_extract_obj_nodata kvs rest (by simp [hd])]
          simp [locateSpec, hd]
        | bool b =>
          rw [try_extract_obj_nodata kvs rest (by simp [hd])]
          simp [locateSpec, hd]
        | num q =>
          rw [try_extract_obj_nodata kvs rest (by simp [hd])]
          simp [locateSpec, hd]
        | str t =>
          rw [try_extract_obj_nodata kvs rest (by simp [hd])]
          simp [locateSpec, hd]
        | arr l2 =>
          rw [try_extract_obj_nodata kvs rest (by simp [hd])]
          simp [locateSpec, hd]

/-- C5 counterexample: the fallback branch that returns the first event
argument when it is itself a list IS reached: on `args = [[1]]` the locator
returns `[1]` through the `selfList` branch (the object-based checks do not
apply to a list), refuting "for no input does `try_extract_inventory`
produce its result through that branch". -/
theorem selfList_branch_reached_cex :
    extractBranch [JVal.arr [JVal.num 1]] = some InvBranch.selfList ∧
    try_extract_inventory [JVal.arr [JVal.num 1]] = [JVal.num 1] := ⟨rfl, rfl⟩

/-- C5 (amended): the fallback branch is reachable, not unreachable — the
checks being sequential independent conditionals does not exclude it,
because a list first-argument fails both `isinstance(first, dict)` checks;
whenever the first event argument is itself a list the locator returns it,
producing the result through that branch. -/
theorem selfList_branch_reachable (l : List JVal) (rest : List JVal) :
    extractBranch (JVal.arr l :: rest) = some InvBranch.selfList ∧
    try_extract_inventory (JVal.arr l :: rest) = l := ⟨rfl, rfl⟩

theorem jnormList_eq_map (xs : List JVal) : jnormList xs = xs.map jnorm := by
  induction xs with
  | nil => simp [jnormList]
  | cons x xs ih => simp [jnormList, ih]

theorem jnormEntries_eq_map (l : List (String × JVal)) :
    jnormEntries l = l.map (fun p => (p.1, jnorm p.2)) := by
  induction l with
  | nil => simp [jnormEntries]
  | cons p l ih =>
    obtain ⟨k, v⟩ := p
    simp [jnormEntries, ih]

theorem sortEntries_eq_of_perm {X Y : List (String × JVal)} (hp : X.Perm Y)
    (hn : (X.map Prod.fst).Nodup) : sortEntries X = sortEntries Y := by
  have sX : List.Sorted keyLe (sortEntries X) := List.sorted_insertionSort keyLe X
  have sY : List.Sorted keyLe (sortEntries Y) := List.sorted_insertionSort keyLe Y
  have pX : (sortEntries X).Perm X := List.perm_insertionSort keyLe X
  have pY : (sortEntries Y).Perm Y := List.perm_insertionSort keyLe Y
  have pXY : (sortEntries X).Perm (sortEntries Y) := pX.trans (hp.trans pY.symm)
  have hnX : ((sortEntries X).map Prod.fst).Nodup := ((pX.map Prod.fst).nodup_iff).mpr hn
  have hnY : ((sortEntries Y).map Prod.fst).Nodup := by
    refine ((pY.map Prod.fst).nodup_iff).mpr ?_
    exact ((hp.map Prod.fst).nodup_iff).mp hn
  have ltX : List.Pairwise keyLt (sortEntries X) :=
    sX.imp₂ (fun _ _ hle hne => lt_of_le_of_ne hle hne) ((List.pairwise_map).mp hnX)
  have ltY : List.Pairwise keyLt (sortEntries Y) :=
    sY.imp₂ (fun _ _ hle hne => lt_of_le_of_ne hle hne) ((List.pairwise_map).mp hnY)
  exact List.eq_of_perm_of_sorted pXY ltX ltY

theorem keysOkList_mem {xs : List JVal} (h : keysOkList xs = true) :
    ∀ x ∈ xs, keysOk x = true := by
  induction xs with
  | nil => intro x hx; cases hx
  | cons a xs ih =>
    simp only [keysOkList, Bool.and_eq_true] at h
    intro x hx
    rcases List.mem_cons.mp hx with rfl | hx
    · exact h.1
    · exact ih h.2 x hx

theorem keysOkEntries_mem {l : List (String × JVal)} (h : keysOkEntries l = true) :
    ∀ p ∈ l, keysOk p.2 = true := by
  induction l with
  | nil => intro p hp; cases hp
  | cons a l ih =>
    obtain ⟨k, v⟩ := a
    simp only [keysOkEntries, Bool.and_eq_true] at h
    intro p hp
    rcases List.mem_cons.mp hp with rfl | hp
    · exact h.1
    · exact ih h.2 p hp

theorem jnorm_respects_perm : ∀ {a b : JVal}, JPerm a b → keysOk a = true → jnorm a = jnorm b := by
  intro a b h
  induction h with
  | null => intro _; rfl
  | bool b => intro _; rfl
  | num q => intro _; rfl
  | str s => intro _; rfl
  | @arr xs ys len h ih =>
    intro hw
    have hks : keysOkList xs = true := by simpa [keysOk] using hw
    simp only [jnorm]
    have hlist : jnormList xs = jnormList ys := by
      rw [jnormList_eq_map, jnormList_eq_map]
      refine List.ext_getElem (by simp [len]) ?_
      intro i h1 h2
      have hx : i < xs.length := by simpa using h1
      have hy : i < ys.length := by simpa using h2
      have hok : keysOk (xs.get ⟨i, hx⟩) = true :=
        keysOkList_mem hks _ (List.get_mem xs i hx)
      have := ih i hx hy hok
      simpa [List.get_eq_getElem] using congrArg (fun t => t) this
    rw [hlist]
  | @obj l1 l2 l3 len hk hv hp ih =>
    intro hw
    simp only [keysOk, Bool.and_eq_true, decide_eq_true_eq] at hw
    obtain ⟨hnd, hent⟩ := hw
    simp only [jnorm]
    rw [jnormEntries_eq_map, jnormEntries_eq_map]
    have hmap12 : l1.map (fun p => (p.1, jnorm p.2)) = l2.map (fun p => (p.1, jnorm p.2)) := by
      refine List.ext_getElem (by simp [len]) ?_
      intro i h1 h2
      have hx : i < l1.length := by simpa using h1
      have hy : i < l2.length := by simpa using h2
      have hok : keysOk (l1.get ⟨i, hx⟩).2 = true :=
        keysOkEntries_mem hent _ (List.get_mem l1 i hx)
      have h1' := hk i hx hy
      have h2' := ih i hx hy hok
      simp only [List.getElem_map]
      rw [show l1[i].1 = l2[i].1 from by simpa [List.get_eq_getElem] using h1',
          show jnorm l1[i].2 = jnorm l2[i].2 from by simpa [List.get_eq_getElem] using h2']
    have hperm23 : (l2.map (fun p => (p.1, jnorm p.2))).Perm
        (l3.map (fun p => (p.1, jnorm p.2))) := hp.map _
    have hndmap : ((l1.map (fun p => (p.1, jnorm p.2))).map Prod.fst).Nodup := by
      simpa [List.map_map, Function.comp] using hnd
    rw [sortEntries_eq_of_perm (hmap12 ▸ hperm23) hndmap]

theorem sigEq_refl (x : Sig) : sigEq x x = true := by
  simp [sigEq, jeq_refl]

theorem dedupStep_mem {s : List Sig} {x : Sig} (h : sigMem x s = true) :
    dedupStep s x = (false, s) := by
  unfold dedupStep
  rw [if_pos h]

theorem dedupStep_not_mem {s : List Sig} {x : Sig} (h : sigMem x s = false) :
    dedupStep s x = (true, dedupPush s x) := by
  unfold dedupStep
  rw [if_neg (by simp [h])]

/-- C6: signature construction is deterministic in event content — two
events with the same direction, the same name, and argument lists equal up
to object key order (which canonical serialization with sorted keys erases)
get identical signature tuples, and feeding the second signature to the
Dedup Filter right after the first was processed reports it as seen and
leaves the deque unchanged, so the second event is skipped. -/
theorem sig_deterministic_dedup (d : String) (n : JVal) (a1 a2 : List JVal)
    (seen : List Sig) (hp : JPerm (JVal.arr a1) (JVal.arr a2))
    (hw : keysOk (JVal.arr a1) = true) :
    eventSig d n a1 = eventSig d n a2 ∧
    dedupStep (dedupStep seen (eventSig d n a1)).2 (eventSig d n a2)
      = (false, (dedupStep seen (eventSig d n a1)).2) := by
  have hsig : eventSig d n a1 = eventSig d n a2 := by
    unfold eventSig canonDumps
    rw [jnorm_respects_perm hp hw]
  refine ⟨hsig, ?_⟩
  rw [← hsig]
  have hmem : sigMem (eventSig d n a1) (dedupStep seen (eventSig d n a1)).2 = true := by
    unfold dedupStep
    by_cases h : sigMem (eventSig d n a1) seen = true
    · rw [if_pos h]
      exact h
    · rw [if_neg h]
      show sigMem (eventSig d n a1) (dedupPush seen (eventSig d n a1)) = true
      have hx : eventSig d n a1 ∈ dedupPush seen (eventSig d n a1) := by
        unfold dedupPush
        split <;> exact List.mem_append_right _ (List.mem_singleton.mpr rfl)
      exact List.any_eq_true.mpr ⟨eventSig d n a1, hx, sigEq_refl _⟩
  exact dedupStep_mem hmem

theorem witA_perm : JPerm (JVal.arr witA1) (JVal.arr witA2) := by
  refine @JPerm.arr witA1 witA2 rfl ?_
  intro i hx hy
  match i, hx, hy with
  | 0, _, _ =>
    show JPerm (JVal.obj [("a", JVal.num 1), ("b", JVal.num 2)])
      (JVal.obj [("b", JVal.num 2), ("a", JVal.num 1)])
    refine @JPerm.obj [("a", JVal.num 1), ("b", JVal.num 2)]
      [("a", JVal.num 1), ("b", JVal.num 2)]
      [("b", JVal.num 2), ("a", JVal.num 1)] rfl ?_ ?_ ?_
    · intro j h1 h2
      match j, h1, h2 with
      | 0, _, _ => rfl
      | 1, _, _ => rfl
    · intro j h1 h2
      match j, h1, h2 with
      | 0, _, _ => exact JPerm.num 1
      | 1, _, _ => exact JPerm.num 2
    · exact List.Perm.swap ("b", JVal.num 2) ("a", JVal.num 1) []
  | i + 1, hx, _ => exact absurd hx (by simp [witA1])

/-- C6 witness: at the concrete argument lists `[{"a":1,"b":2}]` and
`[{"b":2,"a":1}]` (same content, keys in different order, all keys
distinct), the hypotheses hold and applying the theorem gives identical
signatures. -/
theorem sig_deterministic_dedup_witness :
    keysOk (JVal.arr witA1) = true ∧
    eventSig "in" (JVal.str "ev") witA1 = eventSig "in" (JVal.str "ev") witA2 := by
  have hw : keysOk (JVal.arr witA1) = true := by
    simp [witA1, keysOk, keysOkList, keysOkEntries]
  exact ⟨hw, (sig_deterministic_dedup "in" (JVal.str "ev") witA1 witA2 [] witA_perm hw).1⟩

theorem lastN_push (l : List Sig) (x : Sig) :
    dedupPush (lastN seenCapacity l) x = lastN seenCapacity (l ++ [x]) := by
  have hcap : 0 < seenCapacity := by norm_num [seenCapacity]
  unfold dedupPush lastN
  by_cases h : l.length < seenCapacity
  · rw [if_pos]
    · have h0 : l.length - seenCapacity = 0 := by omega
      have h1 : (l ++ [x]).length - seenCapacity = 0 := by
        simp only [List.length_append, List.length_singleton]
        omega
      rw [h0, h1, List.drop_zero, List.drop_zero]
    · simp only [List.length_drop]
      omega
  · rw [if_neg]
    · have hle : l.length + 1 - seenCapacity ≤ l.length := by omega
      rw [List.drop_drop, List.length_append, List.length_singleton,
          List.drop_append_of_le_length hle]
      have : l.length - seenCapacity + 1 = l.length + 1 - seenCapacity := by omega
      rw [this]
    · simp only [List.length_drop]
      omega

theorem dedupRun_append_one (l : List Sig) (x : Sig) :
    dedupRun (l ++ [x]) = (dedupStep (dedupRun l) x).2 := by
  simp [dedupRun, List.foldl_append]

theorem dedupRun_distinct (sigs : List Sig)
    (hpd : sigs.Pairwise (fun a b => sigEq a b = false ∧ sigEq b a = false)) :
    dedupRun sigs = lastN seenCapacity sigs := by
  induction sigs using List.reverseRecOn with
  | nil => simp [dedupRun, lastN]
  | append_singleton l x ih =>
    have hsplit := (List.pairwise_append).mp hpd
    have hl := hsplit.1
    have hx : ∀ y ∈ l, sigEq x y = false := by
      intro y hy
      exact (hsplit.2.2 y hy x (List.mem_singleton.mpr rfl)).2
    rw [dedupRun_append_one, ih hl]
    have hmem : sigMem x (lastN seenCapacity l) = false := by
      unfold sigMem
      rw [List.any_eq_false]
      intro y hy
      have hyl : y ∈ l := List.drop_subset _ l hy
      simp [hx y hyl]
    rw [dedupStep_not_mem hmem]
    exact lastN_push l x

theorem dedupRun_length_le (sigs : List Sig) :
    (dedupRun sigs).length ≤ seenCapacity := by
  have hcap : 0 < seenCapacity := by norm_num [seenCapacity]
  suffices h : ∀ (l : List Sig) (s : List Sig), s.length ≤ seenCapacity →
      (l.foldl (fun s x => (dedupStep s x).2) s).length ≤ seenCapacity by
    exact h sigs [] (by simp)
  intro l
  induction l with
  | nil => intro s hs; simpa using hs
  | cons x rest ih =>
    intro s hs
    simp only [List.foldl_cons]
    apply ih
    unfold dedupStep
    by_cases h : sigMem x s = true
    · rw [if_pos h]
      exact hs
    · rw [if_neg h]
      show (dedupPush s x).length ≤ seenCapacity
      unfold dedupPush
      by_cases h2 : s.length < seenCapacity
      · rw [if_pos h2]
        simp only [List.length_append, List.length_singleton]
        omega
      · rw [if_neg h2]
        simp only [List.length_append, List.length_singleton, List.length_drop]
        omega

/-- C7: the Dedup Filter always holds at most its fixed capacity of 2000
signatures, and evicts oldest-first: after feeding `capacity + 1`
pairwise-distinct signatures through it in sequence, the very first
signature is no longer reported as present, while every one of the most
recent `capacity` signatures still is. -/
theorem dedup_capacity_evicts (sigs : List Sig) (h0 : Sig)
    (hpd : sigs.Pairwise (fun a b => sigEq a b = false ∧ sigEq b a = false))
    (hh : sigs.head? = some h0)
    (hlen : sigs.length = seenCapacity + 1) :
    sigMem h0 (dedupRun sigs) = false ∧
    (∀ x ∈ sigs.tail, sigMem x (dedupRun sigs) = true) ∧
    (∀ l : List Sig, (dedupRun l).length ≤ seenCapacity) := by
  have hrun : dedupRun sigs = sigs.tail := by
    rw [dedupRun_distinct sigs hpd]
    unfold lastN
    rw [hlen]
    have : seenCapacity + 1 - seenCapacity = 1 := by omega
    rw [this, List.drop_one]
  refine ⟨?_, ?_, fun l => dedupRun_length_le l⟩
  · rw [hrun]
    cases sigs with
    | nil => cases hh
    | cons a t =>
      obtain rfl : h0 = a := by simpa using hh.symm
      have hx : ∀ y ∈ t, sigEq h0 y = false :=
        fun y hy => ((List.pairwise_cons.mp hpd).1 y hy).1
      show sigMem h0 t = false
      unfold sigMem
      rw [List.any_eq_false]
      intro y hy
      simp [hx y hy]
  · intro x hx
    rw [hrun]
    exact List.any_eq_true.mpr ⟨x, hx, sigEq_refl x⟩

theorem witSig_distinct {a b : Nat} (hab : a ≠ b) : sigEq (witSig a) (witSig b) = false := by
  simp [sigEq, witSig, jeq]
  exact_mod_cast hab

theorem witSigs_pairwise :
    witSigs.Pairwise (fun a b => sigEq a b = false ∧ sigEq b a = false) :=
  (List.pairwise_lt_range (seenCapacity + 1)).map witSig
    (fun _ _ hab => ⟨witSig_distinct (Nat.ne_of_lt hab), witSig_distinct (Nat.ne_of_lt hab).symm⟩)

theorem witSigs_head : witSigs.head? = some (witSig 0) := by
  rw [witSigs, List.range_succ_eq_map]
  rfl

theorem witSig1_tail : witSig 1 ∈ witSigs.tail := by
  rw [witSigs, List.range_succ_eq_map]
  simp only [List.map_cons, List.tail_cons, List.map_map]
  have h0 : (0 : Nat) ∈ List.range seenCapacity := by
    rw [List.mem_range]
    norm_num [seenCapacity]
  exact List.mem_map.mpr ⟨0, h0, rfl⟩

/-- C7 witness: the 2001 concrete pairwise-distinct signatures
`("in", i, "")` satisfy the hypotheses; applying the theorem, the first
signature is no longer reported present after all insertions while the
second one (a member of the remaining 2000) still is. -/
theorem dedup_capacity_evicts_witness :
    (witSigs.length = seenCapacity + 1 ∧ witSigs.head? = some (witSig 0)) ∧
    sigMem (witSig 0) (dedupRun witSigs) = false ∧
    sigMem (witSig 1) (dedupRun witSigs) = true := by
  have h := dedup_capacity_evicts witSigs (witSig 0) witSigs_pairwise witSigs_head
    (by simp [witSigs])
  exact ⟨⟨by simp [witSigs], witSigs_head⟩, h.1, h.2.1 (witSig 1) witSig1_tail⟩

theorem perfLoop_filterMap (loads : String → Option JVal) (l : List JVal) :
    ∀ out : List JVal, perfLoop loads out l = out ++ l.filterMap (extractMsg loads) := by
  induction l with
  | nil => intro out; simp [perfLoop]
  | cons e rest ih =>
    intro out
    rcases he : extractMsg loads e with _ | m
    · simp [perfLoop, he, ih]
    · simp [perfLoop, he, ih]

/-- C9: the Frame Extractor's pre-parse stage is total and partial-failure
isolated: it equals a `filterMap` of the per-entry parser over the entries
in source order (so it never raises and emits the well-formed entries in
order), and an entry whose parse fails is silently dropped while every
well-formed entry before and after it is still emitted. -/
theorem perf_parse_isolated (loads : String → Option JVal) (pre post : List JVal)
    (bad : JVal) (hb : extractMsg loads bad = none) :
    safe_get_perf loads (pre ++ bad :: post)
      = safe_get_perf loads pre ++ safe_get_perf loads post ∧
    ∀ entries : List JVal, safe_get_perf loads entries = entries.filterMap (extractMsg loads) := by
  have hfm : ∀ entries, safe_get_perf loads entries = entries.filterMap (extractMsg loads) := by
    intro entries
    rw [safe_get_perf, perfLoop_filterMap]
    simp
  refine ⟨?_, hfm⟩
  rw [hfm, hfm, hfm, List.filterMap_append, List.filterMap_cons, hb]

/-- C9 witness: with a malformed entry (the number `3`, not even a dict)
between two well-formed entries, the malformed one is dropped and both of
its neighbours are still emitted. -/
theorem perf_parse_isolated_witness :
    extractMsg demoLoads (JVal.num 3) = none ∧
    safe_get_perf demoLoads [wsBadEntry, JVal.num 3, wsBadEntry]
      = safe_get_perf demoLoads [wsBadEntry] ++ safe_get_perf demoLoads [wsBadEntry] :=
  ⟨rfl, (perf_parse_isolated demoLoads [wsBadEntry] [wsBadEntry] (JVal.num 3) rfl).1⟩

/-- C10: there is a log entry whose outer and inner JSON parse successfully
(under the concrete decoder fragment) and whose method is exactly
`Network.webSocketFrameReceived`, but which lacks the
`params.response.payloadData` path; frame extraction raises a lookup error
on it instead of skipping it — placed before a complete frame, the raise
aborts the poll's pipeline and the later frame is never yielded, while the
complete frame alone is extracted without error. -/
theorem ws_frames_missing_payload_raises :
    safe_get_perf demoLoads [wsBadEntry] = [wsBadMsg] ∧
    iter_ws_frames [wsBadMsg, wsGoodMsg] = ([], true) ∧
    iter_ws_frames [wsGoodMsg] = ([("in", JVal.str "42[\"e\"]")], false) := by
  refine ⟨rfl, ?_, ?_⟩
  · simp [iter_ws_frames, wsBadMsg, wsGoodMsg, payloadOf, pyIndex, pyGet, jeq]
  · simp [iter_ws_frames, wsGoodMsg, payloadOf, pyIndex, pyGet, jeq]
